import Mathlib

/-!
Shallow embedding of the QuantumDesk snapshot collection-and-cache layer
(`src/data.rs`) and the host tick (`src/app.rs`).

Modelling conventions:
* `DateTime<Utc>` timestamps are integers (milliseconds); `chrono` durations
  are integer differences.  The TTL `ChronoDuration::seconds(cache_ttl_secs)`
  becomes `cache_ttl_secs * 1000` milliseconds.
* `f64` price/funding fields are carried opaquely as `Int`: the collection
  layer never computes with them, it only moves them around.
* The network is an oracle `Net`: for each (venue, symbol) call it yields
  either a normalized numeric payload (`AdapterData`) or an error message.
  Each fetch adapter (`fetch_bitfinex_spot`, …) shapes the payload into a
  `MarketSnapshot` exactly as the corresponding Rust function does, stamping
  the fixed venue / instrument label / symbol fields itself.
* Every call of `Utc::now()` inside `load_snapshot` is a read of an explicit
  clock: the k-th key processed in a round reads `clock k`.
* Adapter invocations are traced in a `netCalls` list so that "performs no
  network call" is a provable statement.
* `HashMap<String, CachedSnapshot>` is a function `String → Option CachedSnapshot`
  with pointwise insertion.
-/

/-- Timestamps (`DateTime<Utc>`), in milliseconds. -/
abbrev Time := Int

/-- `MarketSnapshot` from `src/data.rs`. `f64` fields are opaque `Int`s. -/
structure MarketSnapshot where
  venue : String
  instrument_label : String
  symbol : String
  spot_price : Int
  perp_price : Option Int
  funding_rate : Int
  predicted_funding_rate : Option Int
  next_funding_time : Option Time
  last_updated : Time
  deriving DecidableEq, Repr

/-- `CachedSnapshot` from `src/data.rs`: a snapshot plus the fetch time. -/
structure CachedSnapshot where
  snapshot : MarketSnapshot
  fetched_at : Time
  deriving DecidableEq, Repr

/-- The `DataHub` cache: `HashMap<String, CachedSnapshot>`. -/
abbrev Cache := String → Option CachedSnapshot

/-- The empty cache (`HashMap::new()`). -/
def emptyCache : Cache := fun _ => none

/-- `HashMap::insert`. -/
def cacheInsert (c : Cache) (k : String) (v : CachedSnapshot) : Cache :=
  fun k' => if k' = k then some v else c k'

/-- `cache_key` from `src/data.rs`: `format!("{}::{}", venue, symbol)`. -/
def cache_key (venue symbol : String) : String :=
  venue ++ "::" ++ symbol

/-- `SnapshotOutcome` from `src/data.rs`. -/
inductive SnapshotOutcome where
  | Fresh (s : MarketSnapshot)
  | Stale (s : MarketSnapshot) (warning : String)
  deriving DecidableEq, Repr

/-- `VenueConfig` from `src/config.rs`. -/
structure VenueConfig where
  name : String
  symbols : List String
  deriving DecidableEq, Repr

/-- `AppConfig` from `src/config.rs`. -/
structure AppConfig where
  update_interval_ms : Nat
  cache_ttl_secs : Nat
  venues : List VenueConfig
  compact_mode : Bool
  deriving DecidableEq, Repr

/-- `AppConfig::default()` from `src/config.rs`. -/
def AppConfig.default : AppConfig where
  update_interval_ms := 1000
  cache_ttl_secs := 60
  venues :=
    [⟨"Bitfinex", ["tBTCUSD", "tBTCF0:USTF0"]⟩,
     ⟨"Deribit", ["BTC-USD", "BTC-PERPETUAL"]⟩]
  compact_mode := false

/-- Normalized numeric payload an adapter extracts from one upstream call:
the variable parts of a snapshot (prices, funding figures, upstream time).
Fallback chains inside the Rust adapters (`mark_price.or(last_price)…`,
`unwrap_or(0.0)`) happen during payload normalization and are folded into
this oracle answer. -/
structure AdapterData where
  spot_price : Int
  perp_last : Int
  funding_rate : Int
  predicted_funding_rate : Option Int
  next_funding_time : Option Time
  upstream_time : Time
  deriving DecidableEq, Repr

/-- The network oracle: behaviour of the upstream HTTP endpoints for one
(venue, symbol) adapter call — either a normalized payload or a failure
(transport / decode / missing-field, collapsed to its message). -/
abbrev Net := String → String → Except String AdapterData

/-- `fetch_bitfinex_spot`: spot price only; funding fields zero / absent. -/
def fetch_bitfinex_spot (net : Net) (symbol : String) :
    Except String MarketSnapshot :=
  (net "Bitfinex" symbol).map fun d =>
    { venue := "Bitfinex"
      instrument_label := "Spot"
      symbol := symbol
      spot_price := d.spot_price
      perp_price := none
      funding_rate := 0
      predicted_funding_rate := none
      next_funding_time := none
      last_updated := d.upstream_time }

/-- `fetch_bitfinex_perp`: mark price, last price and funding figures. -/
def fetch_bitfinex_perp (net : Net) (symbol : String) :
    Except String MarketSnapshot :=
  (net "Bitfinex" symbol).map fun d =>
    { venue := "Bitfinex"
      instrument_label := "Perp"
      symbol := symbol
      spot_price := d.spot_price
      perp_price := some d.perp_last
      funding_rate := d.funding_rate
      predicted_funding_rate := d.predicted_funding_rate
      next_funding_time := d.next_funding_time
      last_updated := d.upstream_time }

/-- `fetch_deribit_index`: index price only; funding fields zero / absent. -/
def fetch_deribit_index (net : Net) (symbol : String) :
    Except String MarketSnapshot :=
  (net "Deribit" symbol).map fun d =>
    { venue := "Deribit"
      instrument_label := "Index"
      symbol := symbol
      spot_price := d.spot_price
      perp_price := none
      funding_rate := 0
      predicted_funding_rate := none
      next_funding_time := none
      last_updated := d.upstream_time }

/-- `fetch_deribit_perp`: index/mark prices and funding figures. -/
def fetch_deribit_perp (net : Net) (symbol : String) :
    Except String MarketSnapshot :=
  (net "Deribit" symbol).map fun d =>
    { venue := "Deribit"
      instrument_label := "Perp"
      symbol := symbol
      spot_price := d.spot_price
      perp_price := some d.perp_last
      funding_rate := d.funding_rate
      predicted_funding_rate := d.predicted_funding_rate
      next_funding_time := d.next_funding_time
      last_updated := d.upstream_time }

/-- The error message of `fetch_snapshot`'s catch-all arm. -/
def unsupportedMsg (venue symbol : String) : String :=
  "unsupported venue/symbol combination: " ++ venue ++ " " ++ symbol

/-- `DataHub::fetch_snapshot`: static dispatch over the four recognized
(venue, symbol) pairs.  The second component records the adapter
invocations (network activity) the call performs. -/
def fetch_snapshot (net : Net) (venue symbol : String) :
    Except String MarketSnapshot × List (String × String) :=
  match venue, symbol with
  | "Bitfinex", "tBTCUSD" => (fetch_bitfinex_spot net symbol, [(venue, symbol)])
  | "Bitfinex", "tBTCF0:USTF0" => (fetch_bitfinex_perp net symbol, [(venue, symbol)])
  | "Deribit", "BTC-USD" => (fetch_deribit_index net symbol, [(venue, symbol)])
  | "Deribit", "BTC-PERPETUAL" => (fetch_deribit_perp net symbol, [(venue, symbol)])
  | v, s => (.error (unsupportedMsg v s), [])

/-- The four statically recognized (venue, symbol) pairs of `fetch_snapshot`. -/
def recognizedPair (venue symbol : String) : Bool :=
  (venue = "Bitfinex" && symbol = "tBTCUSD") ||
  (venue = "Bitfinex" && symbol = "tBTCF0:USTF0") ||
  (venue = "Deribit" && symbol = "BTC-USD") ||
  (venue = "Deribit" && symbol = "BTC-PERPETUAL")

/-- Warning text of the stale-serve arm of `load_snapshot`. -/
def staleWarning (venue symbol err : String) : String :=
  venue ++ " " ++ symbol ++ " fetch failed (" ++ err ++ "); showing cached data"

/-- Error text of the no-cache arm of `load_snapshot`. -/
def noCacheMsg (venue symbol err : String) : String :=
  venue ++ " " ++ symbol ++ " fetch failed and no cache available (" ++ err ++ ")"

/-- Result of one `load_snapshot` call: the returned `Result<SnapshotOutcome>`,
the cache after the call, and the adapter invocations performed. -/
structure LoadResult where
  result : Except String SnapshotOutcome
  cache : Cache
  netCalls : List (String × String)

/-- `DataHub::load_snapshot`: serve a fresh cache hit, otherwise fetch;
on fetch success overwrite `last_updated` and store in the cache; on fetch
failure fall back to any cache entry (stale serve) or fail for this key. -/
def load_snapshot (net : Net) (cache : Cache) (ttl : Time) (now : Time)
    (venue symbol : String) : LoadResult :=
  let key := cache_key venue symbol
  let onMiss : LoadResult :=
    match fetch_snapshot net venue symbol with
    | (.ok snapshot, calls) =>
        let snapshot := { snapshot with last_updated := now }
        { result := .ok (.Fresh snapshot)
          cache := cacheInsert cache key ⟨snapshot, now⟩
          netCalls := calls }
    | (.error fetch_err, calls) =>
        match cache key with
        | some entry =>
            { result := .ok (.Stale entry.snapshot (staleWarning venue symbol fetch_err))
              cache := cache
              netCalls := calls }
        | none =>
            { result := .error (noCacheMsg venue symbol fetch_err)
              cache := cache
              netCalls := calls }
  match cache key with
  | some entry =>
      if now - entry.fetched_at < ttl then
        { result := .ok (.Fresh entry.snapshot), cache := cache, netCalls := [] }
      else
        onMiss
  | none => onMiss

/-- `CollectionOutcome` from `src/data.rs`. -/
structure CollectionOutcome where
  snapshots : List MarketSnapshot
  warnings : List String
  deriving DecidableEq, Repr

/-- State threaded through one collection round: cache plus the snapshot,
warning and adapter-invocation lists produced by the processed keys. -/
structure RoundResult where
  cache : Cache
  snapshots : List MarketSnapshot
  warnings : List String
  netCalls : List (String × String)

/-- The loop body of `DataHub::collect` over the flattened key list: the
`i`-th key processed reads `clock i` as its `Utc::now()`. -/
def collectKeys (net : Net) (clock : Nat → Time) (ttl : Time) :
    Cache → Nat → List (String × String) → RoundResult
  | cache, _, [] => ⟨cache, [], [], []⟩
  | cache, i, (v, s) :: ks =>
      let r := load_snapshot net cache ttl (clock i) v s
      let rest := collectKeys net clock ttl r.cache (i + 1) ks
      match r.result with
      | .ok (.Fresh snap) =>
          ⟨rest.cache, snap :: rest.snapshots, rest.warnings, r.netCalls ++ rest.netCalls⟩
      | .ok (.Stale snap w) =>
          ⟨rest.cache, snap :: rest.snapshots, w :: rest.warnings, r.netCalls ++ rest.netCalls⟩
      | .error e =>
          ⟨rest.cache, rest.snapshots, e :: rest.warnings, r.netCalls ++ rest.netCalls⟩

/-- The flattened `(venue.name, symbol)` iteration order of `collect`'s
nested loops. -/
def configKeys (config : AppConfig) : List (String × String) :=
  config.venues.flatMap fun venue => venue.symbols.map fun s => (venue.name, s)

/-- `ChronoDuration::seconds(config.cache_ttl_secs as i64)` in milliseconds. -/
def ttlOf (config : AppConfig) : Time :=
  (config.cache_ttl_secs : Int) * 1000

/-- Result of `DataHub::collect`: the outcome handed to the host, the cache
and status label of the hub afterwards, and the adapter invocations. -/
structure CollectResult where
  outcome : CollectionOutcome
  cache : Cache
  status_label : String
  netCalls : List (String × String)

/-- `DataHub::collect`: one round over every configured (venue, symbol)
pair, then derive the coarse status label from the warnings. -/
def collect (net : Net) (clock : Nat → Time) (cache : Cache)
    (config : AppConfig) : CollectResult :=
  let r := collectKeys net clock (ttlOf config) cache 0 (configKeys config)
  { outcome := ⟨r.snapshots, r.warnings⟩
    cache := r.cache
    status_label :=
      if r.warnings.isEmpty then "Live feeds stable" else "Live feeds (degraded)"
    netCalls := r.netCalls }

/-- `MetricsSummary` from `src/metrics.rs` (`average_funding_rate` as an
exact rational average of the opaque funding values). -/
structure MetricsSummary where
  venues_online : Nat
  average_funding_rate : Rat
  deriving DecidableEq, Repr

/-- `MetricsSummary::default()`. -/
def MetricsSummary.default : MetricsSummary := ⟨0, 0⟩

/-- `MetricsEngine::summarize` from `src/metrics.rs`. -/
def summarize (snapshots : List MarketSnapshot) : MetricsSummary :=
  if snapshots.isEmpty then .default
  else
    { venues_online := snapshots.length
      average_funding_rate :=
        ((snapshots.map fun s => (s.funding_rate : Rat)).sum) / snapshots.length }

/-- `AlertStatus` from `src/alerts.rs`. -/
structure AlertStatus where
  name : String
  is_triggered : Bool
  threshold : String
  last_triggered : Option Time
  deriving DecidableEq, Repr

/-- `AlertManager::triggered_count` from `src/alerts.rs`. -/
def triggered_count (alerts : List AlertStatus) : Nat :=
  (alerts.filter fun alert => alert.is_triggered).length

/-- `AppState` from `src/app.rs`. -/
structure AppState where
  market_snapshots : List MarketSnapshot
  metrics_summary : MetricsSummary
  alerts : List AlertStatus
  warnings : List String
  status_line : String

/-- `truncate_for_status` from `src/app.rs`: `text.len()` is the UTF-8 byte
length, the truncation loop walks characters. -/
def truncate_for_status (text : String) : String :=
  if text.utf8ByteSize ≤ 80 then text
  else
    let cs := text.toList
    if cs.length ≤ 80 then String.mk cs
    else String.mk (cs.take 80 ++ ['…'])

/-- `summarize_warnings` from `src/app.rs`. -/
def summarize_warnings (warnings : List String) : Option String :=
  if warnings.isEmpty then none
  else
    let count := warnings.length
    let suffix := if count > 1 then "warnings" else "warning"
    let preview := ((warnings.head?).map truncate_for_status).getD ""
    some (toString count ++ " " ++ suffix ++ ": " ++ preview)

/-- `QuantumDesk` from `src/app.rs`: the host state, its configuration, the
`DataHub` (cache + status label) and the alert manager.  The metrics engine
and AI orchestrator are stateless. -/
structure QuantumDesk where
  state : AppState
  config : AppConfig
  hub_cache : Cache
  hub_status : String
  alerts : List AlertStatus

/-- `QuantumDesk::refresh_status_line` (`readiness_label()` is the constant
"AI offline"). -/
def refresh_status_line (desk : QuantumDesk) : QuantumDesk :=
  let parts :=
    ["Mode " ++ (if desk.config.compact_mode then "compact" else "full"),
     "Refresh " ++ toString desk.config.update_interval_ms ++ "ms",
     "Cache " ++ toString desk.config.cache_ttl_secs ++ "s",
     "Feed " ++ desk.hub_status,
     "AI " ++ "AI offline",
     "Alerts " ++ toString (triggered_count desk.alerts)]
  let parts := parts ++
    [match summarize_warnings desk.state.warnings with
     | some warning => warning
     | none => "Feeds healthy"]
  { desk with state := { desk.state with status_line := String.intercalate " | " parts } }

/-- `QuantumDesk::tick`: collect, adopt the snapshots only when nonempty,
always adopt the warnings, recompute metrics, copy alerts, refresh the
status line. -/
def tick (net : Net) (clock : Nat → Time) (desk : QuantumDesk) : QuantumDesk :=
  let r := collect net clock desk.hub_cache desk.config
  let st := desk.state
  let st := if r.outcome.snapshots.isEmpty then st
            else { st with market_snapshots := r.outcome.snapshots }
  let st := { st with warnings := r.outcome.warnings }
  let st := { st with metrics_summary := summarize st.market_snapshots }
  let st := { st with alerts := desk.alerts }
  refresh_status_line
    { desk with state := st, hub_cache := r.cache, hub_status := r.status_label }

/-! ### Basic step lemmas -/

/-- A key misses the fresh-hit test: no cache entry, or only an expired one. -/
def MissAt (cache : Cache) (ttl now : Time) (venue symbol : String) : Prop :=
  ∀ e, cache (cache_key venue symbol) = some e → ¬ now - e.fetched_at < ttl

theorem load_snapshot_hit (net : Net) (cache : Cache) (ttl now : Time)
    (v s : String) (e : CachedSnapshot)
    (he : cache (cache_key v s) = some e) (hfresh : now - e.fetched_at < ttl) :
    load_snapshot net cache ttl now v s =
      ⟨.ok (.Fresh e.snapshot), cache, []⟩ := by
  unfold load_snapshot
  simp [he, hfresh]

theorem load_snapshot_fetch_ok (net : Net) (cache : Cache) (ttl now : Time)
    (v s : String) (snap : MarketSnapshot) (calls : List (String × String))
    (hmiss : MissAt cache ttl now v s)
    (hfetch : fetch_snapshot net v s = (.ok snap, calls)) :
    load_snapshot net cache ttl now v s =
      ⟨.ok (.Fresh { snap with last_updated := now }),
       cacheInsert cache (cache_key v s) ⟨{ snap with last_updated := now }, now⟩,
       calls⟩ := by
  unfold load_snapshot
  cases hc : cache (cache_key v s) with
  | none => simp [hc, hfetch]
  | some e => simp [hc, hfetch, hmiss e hc]

theorem load_snapshot_fetch_err_cached (net : Net) (cache : Cache)
    (ttl now : Time) (v s : String) (e : CachedSnapshot) (err : String)
    (calls : List (String × String))
    (he : cache (cache_key v s) = some e)
    (hexp : ¬ now - e.fetched_at < ttl)
    (hfetch : fetch_snapshot net v s = (.error err, calls)) :
    load_snapshot net cache ttl now v s =
      ⟨.ok (.Stale e.snapshot (staleWarning v s err)), cache, calls⟩ := by
  unfold load_snapshot
  simp [he, hexp, hfetch]

theorem load_snapshot_fetch_err_none (net : Net) (cache : Cache)
    (ttl now : Time) (v s : String) (err : String)
    (calls : List (String × String))
    (he : cache (cache_key v s) = none)
    (hfetch : fetch_snapshot net v s = (.error err, calls)) :
    load_snapshot net cache ttl now v s =
      ⟨.error (noCacheMsg v s err), cache, calls⟩ := by
  unfold load_snapshot
  simp [he, hfetch]

/-! ### Round decomposition lemmas -/

theorem collectKeys_nil (net : Net) (clock : Nat → Time) (ttl : Time)
    (cache : Cache) (i : Nat) :
    collectKeys net clock ttl cache i [] = ⟨cache, [], [], []⟩ := rfl

theorem collectKeys_cons_fresh (net : Net) (clock : Nat → Time) (ttl : Time)
    (cache cache' : Cache) (i : Nat) (v s : String) (ks : List (String × String))
    (snap : MarketSnapshot) (calls : List (String × String))
    (hstep : load_snapshot net cache ttl (clock i) v s =
      ⟨.ok (.Fresh snap), cache', calls⟩) :
    collectKeys net clock ttl cache i ((v, s) :: ks) =
      ⟨(collectKeys net clock ttl cache' (i + 1) ks).cache,
       snap :: (collectKeys net clock ttl cache' (i + 1) ks).snapshots,
       (collectKeys net clock ttl cache' (i + 1) ks).warnings,
       calls ++ (collectKeys net clock ttl cache' (i + 1) ks).netCalls⟩ := by
  simp only [collectKeys, hstep]

theorem collectKeys_cons_stale (net : Net) (clock : Nat → Time) (ttl : Time)
    (cache cache' : Cache) (i : Nat) (v s : String) (ks : List (String × String))
    (snap : MarketSnapshot) (w : String) (calls : List (String × String))
    (hstep : load_snapshot net cache ttl (clock i) v s =
      ⟨.ok (.Stale snap w), cache', calls⟩) :
    collectKeys net clock ttl cache i ((v, s) :: ks) =
      ⟨(collectKeys net clock ttl cache' (i + 1) ks).cache,
       snap :: (collectKeys net clock ttl cache' (i + 1) ks).snapshots,
       w :: (collectKeys net clock ttl cache' (i + 1) ks).warnings,
       calls ++ (collectKeys net clock ttl cache' (i + 1) ks).netCalls⟩ := by
  simp only [collectKeys, hstep]

theorem collectKeys_cons_err (net : Net) (clock : Nat → Time) (ttl : Time)
    (cache cache' : Cache) (i : Nat) (v s : String) (ks : List (String × String))
    (e : String) (calls : List (String × String))
    (hstep : load_snapshot net cache ttl (clock i) v s =
      ⟨.error e, cache', calls⟩) :
    collectKeys net clock ttl cache i ((v, s) :: ks) =
      ⟨(collectKeys net clock ttl cache' (i + 1) ks).cache,
       (collectKeys net clock ttl cache' (i + 1) ks).snapshots,
       e :: (collectKeys net clock ttl cache' (i + 1) ks).warnings,
       calls ++ (collectKeys net clock ttl cache' (i + 1) ks).netCalls⟩ := by
  simp only [collectKeys, hstep]

theorem collectKeys_append (net : Net) (clock : Nat → Time) (ttl : Time)
    (cache : Cache) (i : Nat) (l₁ l₂ : List (String × String)) :
    collectKeys net clock ttl cache i (l₁ ++ l₂) =
      ⟨(collectKeys net clock ttl
          (collectKeys net clock ttl cache i l₁).cache (i + l₁.length) l₂).cache,
       (collectKeys net clock ttl cache i l₁).snapshots ++
         (collectKeys net clock ttl
           (collectKeys net clock ttl cache i l₁).cache (i + l₁.length) l₂).snapshots,
       (collectKeys net clock ttl cache i l₁).warnings ++
         (collectKeys net clock ttl
           (collectKeys net clock ttl cache i l₁).cache (i + l₁.length) l₂).warnings,
       (collectKeys net clock ttl cache i l₁).netCalls ++
         (collectKeys net clock ttl
           (collectKeys net clock ttl cache i l₁).cache (i + l₁.length) l₂).netCalls⟩ := by
  induction l₁ generalizing cache i with
  | nil => simp [collectKeys_nil]
  | cons k l₁ ih =>
      obtain ⟨v, s⟩ := k
      have hidx : i + 1 + l₁.length = i + ((v, s) :: l₁).length := by
        simp only [List.length_cons]
        omega
      rcases hstep : load_snapshot net cache ttl (clock i) v s with ⟨res, cache', calls⟩
      cases res with
      | ok o =>
          cases o with
          | Fresh snap =>
              rw [List.cons_append,
                collectKeys_cons_fresh net clock ttl cache cache' i v s (l₁ ++ l₂) snap calls hstep,
                collectKeys_cons_fresh net clock ttl cache cache' i v s l₁ snap calls hstep,
                ih, hidx]
              simp [List.append_assoc]
          | Stale snap w =>
              rw [List.cons_append,
                collectKeys_cons_stale net clock ttl cache cache' i v s (l₁ ++ l₂) snap w calls hstep,
                collectKeys_cons_stale net clock ttl cache cache' i v s l₁ snap w calls hstep,
                ih, hidx]
              simp [List.append_assoc]
      | error e =>
          rw [List.cons_append,
            collectKeys_cons_err net clock ttl cache cache' i v s (l₁ ++ l₂) e calls hstep,
            collectKeys_cons_err net clock ttl cache cache' i v s l₁ e calls hstep,
            ih, hidx]
          simp [List.append_assoc]

theorem collect_snapshots (net : Net) (clock : Nat → Time) (cache : Cache)
    (config : AppConfig) :
    (collect net clock cache config).outcome.snapshots =
      (collectKeys net clock (ttlOf config) cache 0 (configKeys config)).snapshots := rfl

theorem collect_warnings (net : Net) (clock : Nat → Time) (cache : Cache)
    (config : AppConfig) :
    (collect net clock cache config).outcome.warnings =
      (collectKeys net clock (ttlOf config) cache 0 (configKeys config)).warnings := rfl

theorem collect_cache (net : Net) (clock : Nat → Time) (cache : Cache)
    (config : AppConfig) :
    (collect net clock cache config).cache =
      (collectKeys net clock (ttlOf config) cache 0 (configKeys config)).cache := rfl

theorem collect_netCalls (net : Net) (clock : Nat → Time) (cache : Cache)
    (config : AppConfig) :
    (collect net clock cache config).netCalls =
      (collectKeys net clock (ttlOf config) cache 0 (configKeys config)).netCalls := rfl

/-! ### Concrete material used by the witnesses -/

/-- A concrete snapshot for witness caches. -/
def snap0 : MarketSnapshot :=
  ⟨"Bitfinex", "Spot", "tBTCUSD", 1, none, 0, none, none, 0⟩

/-- A concrete cache entry fetched at time 0. -/
def entry0 : CachedSnapshot := ⟨snap0, 0⟩

/-- A one-venue, one-symbol configuration (TTL 60 s). -/
def cfg1 : AppConfig := ⟨1000, 60, [⟨"Bitfinex", ["tBTCUSD"]⟩], false⟩

/-- A network oracle on which every upstream call fails. -/
def netFail : Net := fun _ _ => .error "boom"

/-- A concrete adapter payload. -/
def data0 : AdapterData := ⟨100, 101, 2, some 3, some 4, 5⟩

/-- A network oracle on which every upstream call succeeds with `data0`. -/
def netOk : Net := fun _ _ => .ok data0

/-- A clock frozen at 100000 ms (past `cfg1`'s 60000 ms TTL). -/
def clk100 : Nat → Time := fun _ => 100000

/-- A clock frozen at 0 ms. -/
def clk0 : Nat → Time := fun _ => 0

/-- A cache holding `entry0` under the key of (Bitfinex, tBTCUSD). -/
def cache0 : Cache := cacheInsert emptyCache (cache_key "Bitfinex" "tBTCUSD") entry0

/-! ### The claims -/

/-- C1: for a configured (venue, symbol) key whose fetch fails while a cache
entry for that key exists (and the fresh-hit test failed, so a fetch was
attempted), `collect` includes that cached snapshot in the outcome's snapshot
list, appends exactly one warning naming the key and the failure reason, and
the step leaves the cache unchanged. -/
theorem collect_fetchFail_servesStaleCache
    (net : Net) (clock : Nat → Time) (cache : Cache) (config : AppConfig)
    (l₁ l₂ : List (String × String)) (v s err : String)
    (calls : List (String × String)) (entry : CachedSnapshot)
    (hkeys : configKeys config = l₁ ++ (v, s) :: l₂)
    (hentry : (collectKeys net clock (ttlOf config) cache 0 l₁).cache
      (cache_key v s) = some entry)
    (hexpired : ¬ clock l₁.length - entry.fetched_at < ttlOf config)
    (hfail : fetch_snapshot net v s = (.error err, calls)) :
    (load_snapshot net (collectKeys net clock (ttlOf config) cache 0 l₁).cache
        (ttlOf config) (clock l₁.length) v s).cache
      = (collectKeys net clock (ttlOf config) cache 0 l₁).cache ∧
    (collect net clock cache config).outcome.snapshots
      = (collectKeys net clock (ttlOf config) cache 0 l₁).snapshots ++
        entry.snapshot ::
          (collectKeys net clock (ttlOf config)
            (collectKeys net clock (ttlOf config) cache 0 l₁).cache
            (l₁.length + 1) l₂).snapshots ∧
    (collect net clock cache config).outcome.warnings
      = (collectKeys net clock (ttlOf config) cache 0 l₁).warnings ++
        staleWarning v s err ::
          (collectKeys net clock (ttlOf config)
            (collectKeys net clock (ttlOf config) cache 0 l₁).cache
            (l₁.length + 1) l₂).warnings := by
  have hstep := load_snapshot_fetch_err_cached net
    (collectKeys net clock (ttlOf config) cache 0 l₁).cache (ttlOf config)
    (clock l₁.length) v s entry err calls hentry hexpired hfail
  refine ⟨by rw [hstep], ?_, ?_⟩
  · rw [collect_snapshots, hkeys, collectKeys_append]
    simp only [Nat.zero_add]
    rw [collectKeys_cons_stale net clock (ttlOf config) _ _ l₁.length v s l₂
      entry.snapshot (staleWarning v s err) calls hstep]
  · rw [collect_warnings, hkeys, collectKeys_append]
    simp only [Nat.zero_add]
    rw [collectKeys_cons_stale net clock (ttlOf config) _ _ l₁.length v s l₂
      entry.snapshot (staleWarning v s err) calls hstep]

/-- Witness for C1 at a concrete input: the adapter fails, an expired entry
exists, and the outcome serves the cached snapshot with one warning. -/
theorem collect_fetchFail_servesStaleCache_witness :
    (¬ clk100 0 - entry0.fetched_at < ttlOf cfg1) ∧
    fetch_snapshot netFail "Bitfinex" "tBTCUSD" =
      (.error "boom", [("Bitfinex", "tBTCUSD")]) ∧
    (collect netFail clk100 cache0 cfg1).outcome.snapshots = [entry0.snapshot] ∧
    (collect netFail clk100 cache0 cfg1).outcome.warnings =
      [staleWarning "Bitfinex" "tBTCUSD" "boom"] :=
  ⟨by decide, rfl,
   (collect_fetchFail_servesStaleCache netFail clk100 cache0 cfg1 [] []
      "Bitfinex" "tBTCUSD" "boom" [("Bitfinex", "tBTCUSD")] entry0
      rfl rfl (by decide) rfl).2.1,
   (collect_fetchFail_servesStaleCache netFail clk100 cache0 cfg1 [] []
      "Bitfinex" "tBTCUSD" "boom" [("Bitfinex", "tBTCUSD")] entry0
      rfl rfl (by decide) rfl).2.2⟩

/-- C2: for a configured key whose fetch fails and for which no cache entry
exists, `collect` contributes no snapshot for that key, appends exactly one
warning naming the key and the failure reason, leaves the cache unchanged,
and the round continues with the remaining keys. -/
theorem collect_fetchFail_noCache_warns
    (net : Net) (clock : Nat → Time) (cache : Cache) (config : AppConfig)
    (l₁ l₂ : List (String × String)) (v s err : String)
    (calls : List (String × String))
    (hkeys : configKeys config = l₁ ++ (v, s) :: l₂)
    (hnone : (collectKeys net clock (ttlOf config) cache 0 l₁).cache
      (cache_key v s) = none)
    (hfail : fetch_snapshot net v s = (.error err, calls)) :
    (load_snapshot net (collectKeys net clock (ttlOf config) cache 0 l₁).cache
        (ttlOf config) (clock l₁.length) v s).cache
      = (collectKeys net clock (ttlOf config) cache 0 l₁).cache ∧
    (collect net clock cache config).outcome.snapshots
      = (collectKeys net clock (ttlOf config) cache 0 l₁).snapshots ++
          (collectKeys net clock (ttlOf config)
            (collectKeys net clock (ttlOf config) cache 0 l₁).cache
            (l₁.length + 1) l₂).snapshots ∧
    (collect net clock cache config).outcome.warnings
      = (collectKeys net clock (ttlOf config) cache 0 l₁).warnings ++
        noCacheMsg v s err ::
          (collectKeys net clock (ttlOf config)
            (collectKeys net clock (ttlOf config) cache 0 l₁).cache
            (l₁.length + 1) l₂).warnings := by
  have hstep := load_snapshot_fetch_err_none net
    (collectKeys net clock (ttlOf config) cache 0 l₁).cache (ttlOf config)
    (clock l₁.length) v s err calls hnone hfail
  refine ⟨by rw [hstep], ?_, ?_⟩
  · rw [collect_snapshots, hkeys, collectKeys_append]
    simp only [Nat.zero_add]
    rw [collectKeys_cons_err net clock (ttlOf config) _ _ l₁.length v s l₂
      (noCacheMsg v s err) calls hstep]
  · rw [collect_warnings, hkeys, collectKeys_append]
    simp only [Nat.zero_add]
    rw [collectKeys_cons_err net clock (ttlOf config) _ _ l₁.length v s l₂
      (noCacheMsg v s err) calls hstep]

/-- Witness for C2 at a concrete input: the adapter fails on an empty cache
and the outcome has no snapshot and exactly the no-cache warning. -/
theorem collect_fetchFail_noCache_warns_witness :
    fetch_snapshot netFail "Bitfinex" "tBTCUSD" =
      (.error "boom", [("Bitfinex", "tBTCUSD")]) ∧
    (collect netFail clk100 emptyCache cfg1).outcome.snapshots = [] ∧
    (collect netFail clk100 emptyCache cfg1).outcome.warnings =
      [noCacheMsg "Bitfinex" "tBTCUSD" "boom"] :=
  ⟨rfl,
   (collect_fetchFail_noCache_warns netFail clk100 emptyCache cfg1 [] []
      "Bitfinex" "tBTCUSD" "boom" [("Bitfinex", "tBTCUSD")] rfl rfl rfl).2.1,
   (collect_fetchFail_noCache_warns netFail clk100 emptyCache cfg1 [] []
      "Bitfinex" "tBTCUSD" "boom" [("Bitfinex", "tBTCUSD")] rfl rfl rfl).2.2⟩

/-- C3: for a configured key with a cache entry whose age at processing time
is strictly below the TTL, `collect` performs no fetch for that key (no
adapter invocation, cache unchanged), includes the cached snapshot unchanged
in the outcome, and emits no warning for that key. -/
theorem collect_freshHit_noFetch
    (net : Net) (clock : Nat → Time) (cache : Cache) (config : AppConfig)
    (l₁ l₂ : List (String × String)) (v s : String) (entry : CachedSnapshot)
    (hkeys : configKeys config = l₁ ++ (v, s) :: l₂)
    (hentry : (collectKeys net clock (ttlOf config) cache 0 l₁).cache
      (cache_key v s) = some entry)
    (hfresh : clock l₁.length - entry.fetched_at < ttlOf config) :
    load_snapshot net (collectKeys net clock (ttlOf config) cache 0 l₁).cache
        (ttlOf config) (clock l₁.length) v s
      = ⟨.ok (.Fresh entry.snapshot),
         (collectKeys net clock (ttlOf config) cache 0 l₁).cache, []⟩ ∧
    (collect net clock cache config).outcome.snapshots
      = (collectKeys net clock (ttlOf config) cache 0 l₁).snapshots ++
        entry.snapshot ::
          (collectKeys net clock (ttlOf config)
            (collectKeys net clock (ttlOf config) cache 0 l₁).cache
            (l₁.length + 1) l₂).snapshots ∧
    (collect net clock cache config).outcome.warnings
      = (collectKeys net clock (ttlOf config) cache 0 l₁).warnings ++
          (collectKeys net clock (ttlOf config)
            (collectKeys net clock (ttlOf config) cache 0 l₁).cache
            (l₁.length + 1) l₂).warnings ∧
    (collect net clock cache config).netCalls
      = (collectKeys net clock (ttlOf config) cache 0 l₁).netCalls ++
          (collectKeys net clock (ttlOf config)
            (collectKeys net clock (ttlOf config) cache 0 l₁).cache
            (l₁.length + 1) l₂).netCalls := by
  have hstep := load_snapshot_hit net
    (collectKeys net clock (ttlOf config) cache 0 l₁).cache (ttlOf config)
    (clock l₁.length) v s entry hentry hfresh
  refine ⟨hstep, ?_, ?_, ?_⟩
  · rw [collect_snapshots, hkeys, collectKeys_append]
    simp only [Nat.zero_add]
    rw [collectKeys_cons_fresh net clock (ttlOf config) _ _ l₁.length v s l₂
      entry.snapshot [] hstep]
  · rw [collect_warnings, hkeys, collectKeys_append]
    simp only [Nat.zero_add]
    rw [collectKeys_cons_fresh net clock (ttlOf config) _ _ l₁.length v s l₂
      entry.snapshot [] hstep]
  · rw [collect_netCalls, hkeys, collectKeys_append]
    simp only [Nat.zero_add]
    rw [collectKeys_cons_fresh net clock (ttlOf config) _ _ l₁.length v s l₂
      entry.snapshot [] hstep]
    simp

/-- Witness for C3 at a concrete input: a fresh entry (age 0 < TTL) is served
from the cache with no adapter invocation and no warning, even though the
network oracle would fail. -/
theorem collect_freshHit_noFetch_witness :
    (collectKeys netFail clk0 (ttlOf cfg1) cache0 0 []).cache
      (cache_key "Bitfinex" "tBTCUSD") = some entry0 ∧
    clk0 0 - entry0.fetched_at < ttlOf cfg1 ∧
    (collect netFail clk0 cache0 cfg1).outcome.snapshots = [entry0.snapshot] ∧
    (collect netFail clk0 cache0 cfg1).outcome.warnings = [] ∧
    (collect netFail clk0 cache0 cfg1).netCalls = [] :=
  ⟨rfl, by decide,
   (collect_freshHit_noFetch netFail clk0 cache0 cfg1 [] []
      "Bitfinex" "tBTCUSD" entry0 rfl rfl (by decide)).2.1,
   (collect_freshHit_noFetch netFail clk0 cache0 cfg1 [] []
      "Bitfinex" "tBTCUSD" entry0 rfl rfl (by decide)).2.2.1,
   (collect_freshHit_noFetch netFail clk0 cache0 cfg1 [] []
      "Bitfinex" "tBTCUSD" entry0 rfl rfl (by decide)).2.2.2⟩

/-- C4: for a configured key with a missing or expired cache entry whose
fetch succeeds, `collect` stores the new snapshot in the cache under that
key with `fetched_at` equal to the processing time, the snapshot appended to
the outcome has `last_updated` equal to that same time (hence at least the
round-start time for a monotone clock), and no warning is emitted for the
key. -/
theorem collect_fetchOk_updatesCache
    (net : Net) (clock : Nat → Time) (cache : Cache) (config : AppConfig)
    (l₁ l₂ : List (String × String)) (v s : String) (snap : MarketSnapshot)
    (calls : List (String × String))
    (hkeys : configKeys config = l₁ ++ (v, s) :: l₂)
    (hmiss : MissAt (collectKeys net clock (ttlOf config) cache 0 l₁).cache
      (ttlOf config) (clock l₁.length) v s)
    (hok : fetch_snapshot net v s = (.ok snap, calls))
    (hmono : ∀ j, clock 0 ≤ clock j) :
    (load_snapshot net (collectKeys net clock (ttlOf config) cache 0 l₁).cache
        (ttlOf config) (clock l₁.length) v s).cache
      = cacheInsert (collectKeys net clock (ttlOf config) cache 0 l₁).cache
          (cache_key v s)
          ⟨{ snap with last_updated := clock l₁.length }, clock l₁.length⟩ ∧
    (collect net clock cache config).outcome.snapshots
      = (collectKeys net clock (ttlOf config) cache 0 l₁).snapshots ++
        { snap with last_updated := clock l₁.length } ::
          (collectKeys net clock (ttlOf config)
            (cacheInsert (collectKeys net clock (ttlOf config) cache 0 l₁).cache
              (cache_key v s)
              ⟨{ snap with last_updated := clock l₁.length }, clock l₁.length⟩)
            (l₁.length + 1) l₂).snapshots ∧
    ({ snap with last_updated := clock l₁.length } :
        MarketSnapshot).last_updated = clock l₁.length ∧
    clock 0 ≤ ({ snap with last_updated := clock l₁.length } :
        MarketSnapshot).last_updated ∧
    (collect net clock cache config).outcome.warnings
      = (collectKeys net clock (ttlOf config) cache 0 l₁).warnings ++
          (collectKeys net clock (ttlOf config)
            (cacheInsert (collectKeys net clock (ttlOf config) cache 0 l₁).cache
              (cache_key v s)
              ⟨{ snap with last_updated := clock l₁.length }, clock l₁.length⟩)
            (l₁.length + 1) l₂).warnings := by
  have hstep := load_snapshot_fetch_ok net
    (collectKeys net clock (ttlOf config) cache 0 l₁).cache (ttlOf config)
    (clock l₁.length) v s snap calls hmiss hok
  refine ⟨by rw [hstep], ?_, rfl, hmono l₁.length, ?_⟩
  · rw [collect_snapshots, hkeys, collectKeys_append]
    simp only [Nat.zero_add]
    rw [collectKeys_cons_fresh net clock (ttlOf config) _ _ l₁.length v s l₂
      { snap with last_updated := clock l₁.length } calls hstep]
  · rw [collect_warnings, hkeys, collectKeys_append]
    simp only [Nat.zero_add]
    rw [collectKeys_cons_fresh net clock (ttlOf config) _ _ l₁.length v s l₂
      { snap with last_updated := clock l₁.length } calls hstep]

/-- The snapshot `fetch_snapshot netOk "Bitfinex" "tBTCUSD"` produces from
payload `data0`. -/
def snapFetched : MarketSnapshot :=
  ⟨"Bitfinex", "Spot", "tBTCUSD", 100, none, 0, none, none, 5⟩

/-- Witness for C4 at a concrete input: an empty cache plus a succeeding
adapter stores and returns the freshly stamped snapshot without warnings. -/
theorem collect_fetchOk_updatesCache_witness :
    fetch_snapshot netOk "Bitfinex" "tBTCUSD" =
      (.ok snapFetched, [("Bitfinex", "tBTCUSD")]) ∧
    (collect netOk clk100 emptyCache cfg1).outcome.snapshots =
      [{ snapFetched with last_updated := 100000 }] ∧
    (collect netOk clk100 emptyCache cfg1).cache (cache_key "Bitfinex" "tBTCUSD") =
      some ⟨{ snapFetched with last_updated := 100000 }, 100000⟩ ∧
    (collect netOk clk100 emptyCache cfg1).outcome.warnings = [] :=
  ⟨rfl,
   (collect_fetchOk_updatesCache netOk clk100 emptyCache cfg1 [] []
      "Bitfinex" "tBTCUSD" snapFetched [("Bitfinex", "tBTCUSD")]
      rfl (fun e h => by simp [collectKeys_nil, emptyCache] at h)
      rfl (fun _ => le_refl _)).2.1,
   rfl,
   (collect_fetchOk_updatesCache netOk clk100 emptyCache cfg1 [] []
      "Bitfinex" "tBTCUSD" snapFetched [("Bitfinex", "tBTCUSD")]
      rfl (fun e h => by simp [collectKeys_nil, emptyCache] at h)
      rfl (fun _ => le_refl _)).2.2.2.2⟩

/-- Per-round per-key length bounds: each processed key contributes at most
one snapshot, at most one warning, and at least one of the two. -/
theorem collectKeys_length_bounds (net : Net) (clock : Nat → Time) (ttl : Time)
    (cache : Cache) (i : Nat) (keys : List (String × String)) :
    (collectKeys net clock ttl cache i keys).snapshots.length ≤ keys.length ∧
    (collectKeys net clock ttl cache i keys).warnings.length ≤ keys.length ∧
    keys.length ≤ (collectKeys net clock ttl cache i keys).snapshots.length +
      (collectKeys net clock ttl cache i keys).warnings.length := by
  induction keys generalizing cache i with
  | nil => simp [collectKeys_nil]
  | cons k ks ih =>
      obtain ⟨v, s⟩ := k
      rcases hstep : load_snapshot net cache ttl (clock i) v s with ⟨res, cache', calls⟩
      cases res with
      | ok o =>
          cases o with
          | Fresh snap =>
              rw [collectKeys_cons_fresh net clock ttl cache cache' i v s ks snap calls hstep]
              obtain ⟨h1, h2, h3⟩ := ih cache' (i + 1)
              simp only [List.length_cons]
              omega
          | Stale snap w =>
              rw [collectKeys_cons_stale net clock ttl cache cache' i v s ks snap w calls hstep]
              obtain ⟨h1, h2, h3⟩ := ih cache' (i + 1)
              simp only [List.length_cons]
              omega
      | error e =>
          rw [collectKeys_cons_err net clock ttl cache cache' i v s ks e calls hstep]
          obtain ⟨h1, h2, h3⟩ := ih cache' (i + 1)
          simp only [List.length_cons]
          omega

/-- C5: `collect` never fails as a whole: it always returns a complete
`CollectionOutcome` in which every configured key was processed exactly once
(each key contributes at most one snapshot, at most one warning, and at
least one of the two), and an empty configuration yields empty snapshot and
warning lists with the cache untouched, not an error. -/
theorem collect_total_allKeysOnce
    (net : Net) (clock : Nat → Time) (cache : Cache) (config : AppConfig) :
    (configKeys config = [] →
      (collect net clock cache config).outcome = ⟨[], []⟩ ∧
      (collect net clock cache config).cache = cache) ∧
    (collect net clock cache config).outcome.snapshots.length ≤
      (configKeys config).length ∧
    (collect net clock cache config).outcome.warnings.length ≤
      (configKeys config).length ∧
    (configKeys config).length ≤
      (collect net clock cache config).outcome.snapshots.length +
      (collect net clock cache config).outcome.warnings.length := by
  obtain ⟨h1, h2, h3⟩ := collectKeys_length_bounds net clock (ttlOf config)
    cache 0 (configKeys config)
  refine ⟨fun hnil => ?_, h1, h2, h3⟩
  constructor
  · show (⟨(collectKeys net clock (ttlOf config) cache 0 (configKeys config)).snapshots,
      (collectKeys net clock (ttlOf config) cache 0 (configKeys config)).warnings⟩ :
        CollectionOutcome) = ⟨[], []⟩
    rw [hnil, collectKeys_nil]
  · rw [collect_cache, hnil, collectKeys_nil]

/-- A configuration with no venues. -/
def cfgEmpty : AppConfig := ⟨1000, 60, [], false⟩

/-- Witness for C5 at a concrete input: an empty configuration produces an
empty, warning-free outcome and leaves the cache untouched. -/
theorem collect_total_allKeysOnce_witness :
    configKeys cfgEmpty = [] ∧
    (collect netFail clk0 cache0 cfgEmpty).outcome = ⟨[], []⟩ ∧
    (collect netFail clk0 cache0 cfgEmpty).cache = cache0 ∧
    (collect netFail clk0 cache0 cfgEmpty).outcome.warnings.length ≤
      (configKeys cfgEmpty).length :=
  ⟨rfl,
   ((collect_total_allKeysOnce netFail clk0 cache0 cfgEmpty).1 rfl).1,
   ((collect_total_allKeysOnce netFail clk0 cache0 cfgEmpty).1 rfl).2,
   (collect_total_allKeysOnce netFail clk0 cache0 cfgEmpty).2.2.1⟩

/-- Per-key snapshot contributions of one round, in processing order: the
`i`-th inner list is what the `i`-th configured key pushes onto the outcome
snapshot list (one snapshot, or nothing on a hard per-key failure). -/
def collectContribs (net : Net) (clock : Nat → Time) (ttl : Time) :
    Cache → Nat → List (String × String) → List (List MarketSnapshot)
  | _, _, [] => []
  | cache, i, (v, s) :: ks =>
      let r := load_snapshot net cache ttl (clock i) v s
      (match r.result with
       | .ok (.Fresh snap) => [snap]
       | .ok (.Stale snap _) => [snap]
       | .error _ => []) :: collectContribs net clock ttl r.cache (i + 1) ks

/-- C7: the outcome's snapshot list is the in-order concatenation of the
per-key contributions taken in configured venue/symbol order, with one
contribution slot per configured key and at most one snapshot per slot —
i.e. the snapshot list preserves the configured (venue, symbol) order. -/
theorem collect_snapshots_configOrder
    (net : Net) (clock : Nat → Time) (cache : Cache) (config : AppConfig) :
    (collect net clock cache config).outcome.snapshots =
      (collectContribs net clock (ttlOf config) cache 0 (configKeys config)).flatten ∧
    (collectContribs net clock (ttlOf config) cache 0 (configKeys config)).length =
      (configKeys config).length ∧
    ∀ c ∈ collectContribs net clock (ttlOf config) cache 0 (configKeys config),
      c.length ≤ 1 := by
  rw [collect_snapshots]
  have main : ∀ (keys : List (String × String)) (cache : Cache) (i : Nat),
      (collectKeys net clock (ttlOf config) cache i keys).snapshots =
        (collectContribs net clock (ttlOf config) cache i keys).flatten ∧
      (collectContribs net clock (ttlOf config) cache i keys).length = keys.length ∧
      ∀ c ∈ collectContribs net clock (ttlOf config) cache i keys, c.length ≤ 1 := by
    intro keys
    induction keys with
    | nil => intro cache i; simp [collectKeys_nil, collectContribs]
    | cons k ks ih =>
        intro cache i
        obtain ⟨v, s⟩ := k
        rcases hstep : load_snapshot net cache (ttlOf config) (clock i) v s with
          ⟨res, cache', calls⟩
        obtain ⟨ih1, ih2, ih3⟩ := ih cache' (i + 1)
        cases res with
        | ok o =>
            cases o with
            | Fresh snap =>
                rw [collectKeys_cons_fresh net clock (ttlOf config) cache cache' i
                  v s ks snap calls hstep]
                simp only [collectContribs, hstep, List.flatten_cons,
                  List.length_cons, List.mem_cons]
                refine ⟨by simp [ih1], by simp [ih2], ?_⟩
                rintro c (rfl | hc)
                · simp
                · exact ih3 c hc
            | Stale snap w =>
                rw [collectKeys_cons_stale net clock (ttlOf config) cache cache' i
                  v s ks snap w calls hstep]
                simp only [collectContribs, hstep, List.flatten_cons,
                  List.length_cons, List.mem_cons]
                refine ⟨by simp [ih1], by simp [ih2], ?_⟩
                rintro c (rfl | hc)
                · simp
                · exact ih3 c hc
        | error e =>
            rw [collectKeys_cons_err net clock (ttlOf config) cache cache' i
              v s ks e calls hstep]
            simp only [collectContribs, hstep, List.flatten_cons,
              List.length_cons, List.mem_cons]
            refine ⟨by simp [ih1], by simp [ih2], ?_⟩
            rintro c (rfl | hc)
            · simp
            · exact ih3 c hc
  exact main (configKeys config) cache 0

/-- Witness for C7 at a concrete input: the outcome equals the flattened
per-key contributions, with one slot for the one configured key. -/
theorem collect_snapshots_configOrder_witness :
    (collect netFail clk0 cache0 cfg1).outcome.snapshots =
      (collectContribs netFail clk0 (ttlOf cfg1) cache0 0 (configKeys cfg1)).flatten ∧
    (collectContribs netFail clk0 (ttlOf cfg1) cache0 0 (configKeys cfg1)).length =
      (configKeys cfg1).length ∧
    ([entry0.snapshot] : List MarketSnapshot).length ≤ 1 :=
  ⟨(collect_snapshots_configOrder netFail clk0 cache0 cfg1).1,
   (collect_snapshots_configOrder netFail clk0 cache0 cfg1).2.1,
   (collect_snapshots_configOrder netFail clk0 cache0 cfg1).2.2
     [entry0.snapshot] (by decide)⟩

/-- An unrecognized (venue, symbol) pair hits `fetch_snapshot`'s catch-all
arm: a configuration error, returned without invoking any adapter,
whatever the network would have answered. -/
theorem fetch_snapshot_unrecognized (v s : String)
    (h : recognizedPair v s = false) (net : Net) :
    fetch_snapshot net v s = (.error (unsupportedMsg v s), []) := by
  unfold fetch_snapshot
  split
  all_goals simp_all [recognizedPair]

/-- C9: a (venue, symbol) pair outside the statically recognized set fails
immediately in `fetch_snapshot` without any adapter invocation, for every
network behaviour; during a round this configuration error becomes a
per-key warning (or a stale-cache serve when an expired entry exists) and
the round continues over the remaining keys. -/
theorem collect_unrecognizedPair_warns
    (net : Net) (clock : Nat → Time) (cache : Cache) (config : AppConfig)
    (l₁ l₂ : List (String × String)) (v s : String)
    (hunrec : recognizedPair v s = false)
    (hkeys : configKeys config = l₁ ++ (v, s) :: l₂) :
    (∀ net' : Net, fetch_snapshot net' v s = (.error (unsupportedMsg v s), [])) ∧
    ((collectKeys net clock (ttlOf config) cache 0 l₁).cache (cache_key v s) = none →
      (collect net clock cache config).outcome.snapshots
        = (collectKeys net clock (ttlOf config) cache 0 l₁).snapshots ++
            (collectKeys net clock (ttlOf config)
              (collectKeys net clock (ttlOf config) cache 0 l₁).cache
              (l₁.length + 1) l₂).snapshots ∧
      (collect net clock cache config).outcome.warnings
        = (collectKeys net clock (ttlOf config) cache 0 l₁).warnings ++
          noCacheMsg v s (unsupportedMsg v s) ::
            (collectKeys net clock (ttlOf config)
              (collectKeys net clock (ttlOf config) cache 0 l₁).cache
              (l₁.length + 1) l₂).warnings) ∧
    (∀ entry : CachedSnapshot,
      (collectKeys net clock (ttlOf config) cache 0 l₁).cache (cache_key v s)
        = some entry →
      ¬ clock l₁.length - entry.fetched_at < ttlOf config →
      (collect net clock cache config).outcome.snapshots
        = (collectKeys net clock (ttlOf config) cache 0 l₁).snapshots ++
          entry.snapshot ::
            (collectKeys net clock (ttlOf config)
              (collectKeys net clock (ttlOf config) cache 0 l₁).cache
              (l₁.length + 1) l₂).snapshots ∧
      (collect net clock cache config).outcome.warnings
        = (collectKeys net clock (ttlOf config) cache 0 l₁).warnings ++
          staleWarning v s (unsupportedMsg v s) ::
            (collectKeys net clock (ttlOf config)
              (collectKeys net clock (ttlOf config) cache 0 l₁).cache
              (l₁.length + 1) l₂).warnings) := by
  refine ⟨fetch_snapshot_unrecognized v s hunrec, fun hnone => ?_, fun entry he hexp => ?_⟩
  · have hstep := load_snapshot_fetch_err_none net
      (collectKeys net clock (ttlOf config) cache 0 l₁).cache (ttlOf config)
      (clock l₁.length) v s (unsupportedMsg v s) [] hnone
      (fetch_snapshot_unrecognized v s hunrec net)
    constructor
    · rw [collect_snapshots, hkeys, collectKeys_append]
      simp only [Nat.zero_add]
      rw [collectKeys_cons_err net clock (ttlOf config) _ _ l₁.length v s l₂
        (noCacheMsg v s (unsupportedMsg v s)) [] hstep]
    · rw [collect_warnings, hkeys, collectKeys_append]
      simp only [Nat.zero_add]
      rw [collectKeys_cons_err net clock (ttlOf config) _ _ l₁.length v s l₂
        (noCacheMsg v s (unsupportedMsg v s)) [] hstep]
  · have hstep := load_snapshot_fetch_err_cached net
      (collectKeys net clock (ttlOf config) cache 0 l₁).cache (ttlOf config)
      (clock l₁.length) v s entry (unsupportedMsg v s) [] he hexp
      (fetch_snapshot_unrecognized v s hunrec net)
    constructor
    · rw [collect_snapshots, hkeys, collectKeys_append]
      simp only [Nat.zero_add]
      rw [collectKeys_cons_stale net clock (ttlOf config) _ _ l₁.length v s l₂
        entry.snapshot (staleWarning v s (unsupportedMsg v s)) [] hstep]
    · rw [collect_warnings, hkeys, collectKeys_append]
      simp only [Nat.zero_add]
      rw [collectKeys_cons_stale net clock (ttlOf config) _ _ l₁.length v s l₂
        entry.snapshot (staleWarning v s (unsupportedMsg v s)) [] hstep]

/-- A configuration naming a (venue, symbol) pair outside the recognized set. -/
def cfgUnknown : AppConfig := ⟨1000, 60, [⟨"Kraken", ["XBT"]⟩], false⟩

/-- Witness for C9 at a concrete input: the unknown pair (Kraken, XBT) fails
without network activity and surfaces as exactly one warning while the round
completes. -/
theorem collect_unrecognizedPair_warns_witness :
    recognizedPair "Kraken" "XBT" = false ∧
    fetch_snapshot netOk "Kraken" "XBT" =
      (.error (unsupportedMsg "Kraken" "XBT"), []) ∧
    (collect netOk clk0 emptyCache cfgUnknown).outcome.snapshots = [] ∧
    (collect netOk clk0 emptyCache cfgUnknown).outcome.warnings =
      [noCacheMsg "Kraken" "XBT" (unsupportedMsg "Kraken" "XBT")] :=
  ⟨by decide,
   (collect_unrecognizedPair_warns netOk clk0 emptyCache cfgUnknown [] []
      "Kraken" "XBT" (by decide) rfl).1 netOk,
   ((collect_unrecognizedPair_warns netOk clk0 emptyCache cfgUnknown [] []
      "Kraken" "XBT" (by decide) rfl).2.1 rfl).1,
   ((collect_unrecognizedPair_warns netOk clk0 emptyCache cfgUnknown [] []
      "Kraken" "XBT" (by decide) rfl).2.1 rfl).2⟩

/-- C10: when a round's outcome has an empty snapshot list, `tick` leaves
the previously displayed market snapshots (startup placeholders included)
unchanged in the application state, while the warnings field is always
replaced by the new round's warnings. -/
theorem tick_keepsSnapshots_replacesWarnings
    (net : Net) (clock : Nat → Time) (desk : QuantumDesk) :
    ((collect net clock desk.hub_cache desk.config).outcome.snapshots = [] →
      (tick net clock desk).state.market_snapshots =
        desk.state.market_snapshots) ∧
    (tick net clock desk).state.warnings =
      (collect net clock desk.hub_cache desk.config).outcome.warnings := by
  constructor
  · intro h
    simp [tick, refresh_status_line, h]
  · simp [tick, refresh_status_line]

/-- A concrete host state whose displayed snapshots predate the round. -/
def desk0 : QuantumDesk :=
  ⟨⟨[snap0], MetricsSummary.default, [], ["old warning"], "line"⟩,
   cfgEmpty, emptyCache, "Initializing feeds", []⟩

/-- Witness for C10 at a concrete input: an empty round keeps the displayed
snapshots and replaces the warnings. -/
theorem tick_keepsSnapshots_replacesWarnings_witness :
    (collect netFail clk0 desk0.hub_cache desk0.config).outcome.snapshots = [] ∧
    (tick netFail clk0 desk0).state.market_snapshots = [snap0] ∧
    (tick netFail clk0 desk0).state.warnings = [] :=
  ⟨rfl,
   (tick_keepsSnapshots_replacesWarnings netFail clk0 desk0).1 rfl,
   (tick_keepsSnapshots_replacesWarnings netFail clk0 desk0).2⟩

/-! ### Cache-key injectivity on recognized pairs (for C6) -/

theorem cache_key_data (v s : String) :
    (cache_key v s).data = v.data ++ ':' :: ':' :: s.data := by
  simp [cache_key, String.data_append]

theorem key_decomp (v s : String) (L : List Char)
    (h : v.data ++ ':' :: ':' :: s.data = L) :
    v.data = L.take v.data.length ∧
    s.data = L.drop (v.data.length + 2) ∧
    v.data.length + 2 + s.data.length = L.length := by
  subst h
  refine ⟨(List.take_left _ _).symm, ?_, ?_⟩
  · have hsplit : v.data ++ ':' :: ':' :: s.data = (v.data ++ [':', ':']) ++ s.data := by
      simp
    have hlen : (v.data ++ [':', ':']).length = v.data.length + 2 := by simp
    rw [hsplit, ← hlen, List.drop_left]
  · simp only [List.length_append, List.length_cons]
    omega

theorem cache_key_inj_aux (v s a b : String)
    (h : cache_key v s = cache_key a b)
    (huniq : ∀ n : Fin ((cache_key a b).data.length + 1),
      ((cache_key a b).data.take (n : Nat) ++ ':' :: ':' ::
          (cache_key a b).data.drop ((n : Nat) + 2) = (cache_key a b).data) →
        (n : Nat) = a.data.length) :
    v = a ∧ s = b := by
  have hd : v.data ++ ':' :: ':' :: s.data = (cache_key a b).data := by
    rw [← cache_key_data, h]
  have hd' : a.data ++ ':' :: ':' :: b.data = (cache_key a b).data :=
    (cache_key_data a b).symm
  obtain ⟨ht, hdrop, hlen⟩ := key_decomp v s _ hd
  obtain ⟨ht', hdrop', hlen'⟩ := key_decomp a b _ hd'
  have hbound : v.data.length < (cache_key a b).data.length + 1 := by omega
  have hvlen : v.data.length = a.data.length := by
    refine huniq ⟨v.data.length, hbound⟩ ?_
    show (cache_key a b).data.take v.data.length ++ ':' :: ':' ::
        (cache_key a b).data.drop (v.data.length + 2) = (cache_key a b).data
    rw [← ht, ← hdrop]
    exact hd
  constructor
  · apply String.ext
    rw [ht, hvlen, ← ht']
  · apply String.ext
    rw [hdrop, hvlen, ← hdrop']

theorem cache_key_inj_recognized (v s a b : String)
    (hrec : recognizedPair a b = true)
    (h : cache_key v s = cache_key a b) : v = a ∧ s = b := by
  have hcases : ((a = "Bitfinex" ∧ b = "tBTCUSD") ∨
      (a = "Bitfinex" ∧ b = "tBTCF0:USTF0")) ∨
      ((a = "Deribit" ∧ b = "BTC-USD") ∨
      (a = "Deribit" ∧ b = "BTC-PERPETUAL")) := by
    simpa [recognizedPair, Bool.or_eq_true, Bool.and_eq_true,
      decide_eq_true_eq, or_assoc] using hrec
  rcases hcases with (⟨rfl, rfl⟩ | ⟨rfl, rfl⟩) | (⟨rfl, rfl⟩ | ⟨rfl, rfl⟩)
  · exact cache_key_inj_aux v s _ _ h (by decide)
  · exact cache_key_inj_aux v s _ _ h (by decide)
  · exact cache_key_inj_aux v s _ _ h (by decide)
  · exact cache_key_inj_aux v s _ _ h (by decide)

/-- A successful `fetch_snapshot` stamps the snapshot with the processed
venue and symbol, and only recognized pairs can succeed. -/
theorem fetch_snapshot_ok_ident (net : Net) (v s : String)
    (snap : MarketSnapshot) (calls : List (String × String))
    (h : fetch_snapshot net v s = (.ok snap, calls)) :
    snap.venue = v ∧ snap.symbol = s ∧ recognizedPair v s = true := by
  unfold fetch_snapshot at h
  split at h
  · have h1 := congrArg Prod.fst h
    simp only [fetch_bitfinex_spot] at h1
    cases hnet : net "Bitfinex" "tBTCUSD" <;> rw [hnet] at h1 <;>
      simp [Except.map] at h1
    exact ⟨by rw [← h1], by rw [← h1], by decide⟩
  · have h1 := congrArg Prod.fst h
    simp only [fetch_bitfinex_perp] at h1
    cases hnet : net "Bitfinex" "tBTCF0:USTF0" <;> rw [hnet] at h1 <;>
      simp [Except.map] at h1
    exact ⟨by rw [← h1], by rw [← h1], by decide⟩
  · have h1 := congrArg Prod.fst h
    simp only [fetch_deribit_index] at h1
    cases hnet : net "Deribit" "BTC-USD" <;> rw [hnet] at h1 <;>
      simp [Except.map] at h1
    exact ⟨by rw [← h1], by rw [← h1], by decide⟩
  · have h1 := congrArg Prod.fst h
    simp only [fetch_deribit_perp] at h1
    cases hnet : net "Deribit" "BTC-PERPETUAL" <;> rw [hnet] at h1 <;>
      simp [Except.map] at h1
    exact ⟨by rw [← h1], by rw [← h1], by decide⟩
  · exact absurd (congrArg Prod.fst h) (by simp)

/-- Cache well-formedness: every entry is stored under the cache key of its
own snapshot's (venue, symbol), and that pair is recognized.  This holds for
the startup cache and is maintained by every round, because entries are only
ever written by successful fetches. -/
def CacheWF (cache : Cache) : Prop :=
  ∀ k e, cache k = some e →
    recognizedPair e.snapshot.venue e.snapshot.symbol = true ∧
    k = cache_key e.snapshot.venue e.snapshot.symbol

theorem CacheWF_empty : CacheWF emptyCache := by
  intro k e h
  simp [emptyCache] at h

/-- The cache after `load_snapshot` is either untouched, or extended at the
processed key with the freshly fetched, correctly stamped snapshot. -/
theorem load_snapshot_cache_cases (net : Net) (cache : Cache) (ttl now : Time)
    (v s : String) :
    (load_snapshot net cache ttl now v s).cache = cache ∨
    ∃ snap calls, fetch_snapshot net v s = (.ok snap, calls) ∧
      snap.venue = v ∧ snap.symbol = s ∧ recognizedPair v s = true ∧
      (load_snapshot net cache ttl now v s).cache =
        cacheInsert cache (cache_key v s)
          ⟨{ snap with last_updated := now }, now⟩ := by
  cases hc : cache (cache_key v s) with
  | some e =>
      by_cases hf : now - e.fetched_at < ttl
      · left
        rw [load_snapshot_hit net cache ttl now v s e hc hf]
      · rcases hfetch : fetch_snapshot net v s with ⟨res, calls⟩
        cases res with
        | ok snap =>
            obtain ⟨hv, hs, hrec⟩ := fetch_snapshot_ok_ident net v s snap calls hfetch
            have hmiss : MissAt cache ttl now v s := by
              intro e' he'
              rw [hc] at he'
              injection he' with he''
              rw [← he'']
              exact hf
            right
            rw [load_snapshot_fetch_ok net cache ttl now v s snap calls hmiss hfetch]
            exact ⟨snap, calls, rfl, hv, hs, hrec, rfl⟩
        | error err =>
            left
            rw [load_snapshot_fetch_err_cached net cache ttl now v s e err calls hc hf hfetch]
  | none =>
      rcases hfetch : fetch_snapshot net v s with ⟨res, calls⟩
      cases res with
      | ok snap =>
          obtain ⟨hv, hs, hrec⟩ := fetch_snapshot_ok_ident net v s snap calls hfetch
          have hmiss : MissAt cache ttl now v s := by
            intro e' he'
            rw [hc] at he'
            exact absurd he' (by simp)
          right
          rw [load_snapshot_fetch_ok net cache ttl now v s snap calls hmiss hfetch]
          exact ⟨snap, calls, rfl, hv, hs, hrec, rfl⟩
      | error err =>
          left
          rw [load_snapshot_fetch_err_none net cache ttl now v s err calls hc hfetch]

theorem load_snapshot_preservesWF (net : Net) (cache : Cache) (ttl now : Time)
    (v s : String) (hwf : CacheWF cache) :
    CacheWF (load_snapshot net cache ttl now v s).cache := by
  rcases load_snapshot_cache_cases net cache ttl now v s with
    hsame | ⟨snap, calls, hfetch, hv, hs, hrec, hins⟩
  · rw [hsame]; exact hwf
  · rw [hins]
    intro k e hk
    by_cases hkey : k = cache_key v s
    · subst hkey
      simp only [cacheInsert, if_pos rfl] at hk
      injection hk with hk'
      rw [← hk']
      constructor
      · show recognizedPair snap.venue snap.symbol = true
        rw [hv, hs]; exact hrec
      · show cache_key v s = cache_key snap.venue snap.symbol
        rw [hv, hs]
    · simp only [cacheInsert, if_neg hkey] at hk
      exact hwf k e hk

theorem collectKeys_preservesWF (net : Net) (clock : Nat → Time) (ttl : Time) :
    ∀ (keys : List (String × String)) (cache : Cache) (i : Nat),
    CacheWF cache → CacheWF (collectKeys net clock ttl cache i keys).cache := by
  intro keys
  induction keys with
  | nil =>
      intro cache i h
      rw [collectKeys_nil]
      exact h
  | cons k ks ih =>
      intro cache i h
      obtain ⟨v, s⟩ := k
      rcases hstep : load_snapshot net cache ttl (clock i) v s with ⟨res, cache', calls⟩
      have hwf' : CacheWF cache' := by
        have hx := load_snapshot_preservesWF net cache ttl (clock i) v s h
        rw [hstep] at hx
        exact hx
      cases res with
      | ok o =>
          cases o with
          | Fresh snap =>
              rw [collectKeys_cons_fresh net clock ttl cache cache' i v s ks snap calls hstep]
              exact ih cache' (i + 1) hwf'
          | Stale snap w =>
              rw [collectKeys_cons_stale net clock ttl cache cache' i v s ks snap w calls hstep]
              exact ih cache' (i + 1) hwf'
      | error e =>
          rw [collectKeys_cons_err net clock ttl cache cache' i v s ks e calls hstep]
          exact ih cache' (i + 1) hwf'

/-- The result of `load_snapshot` is a cache-served snapshot, a freshly
fetched snapshot, or a per-key error. -/
theorem load_snapshot_result_cases (net : Net) (cache : Cache) (ttl now : Time)
    (v s : String) :
    (∃ e, cache (cache_key v s) = some e ∧
      ((load_snapshot net cache ttl now v s).result = .ok (.Fresh e.snapshot) ∨
       ∃ w, (load_snapshot net cache ttl now v s).result = .ok (.Stale e.snapshot w))) ∨
    (∃ snap calls, fetch_snapshot net v s = (.ok snap, calls) ∧
      (load_snapshot net cache ttl now v s).result =
        .ok (.Fresh { snap with last_updated := now })) ∨
    (∃ err calls, fetch_snapshot net v s = (.error err, calls) ∧
      cache (cache_key v s) = none ∧
      (load_snapshot net cache ttl now v s).result =
        .error (noCacheMsg v s err)) := by
  cases hc : cache (cache_key v s) with
  | some e =>
      by_cases hf : now - e.fetched_at < ttl
      · left
        rw [load_snapshot_hit net cache ttl now v s e hc hf]
        exact ⟨e, rfl, .inl rfl⟩
      · rcases hfetch : fetch_snapshot net v s with ⟨res, calls⟩
        cases res with
        | ok snap =>
            have hmiss : MissAt cache ttl now v s := by
              intro e' he'
              rw [hc] at he'
              injection he' with he''
              rw [← he'']
              exact hf
            right; left
            rw [load_snapshot_fetch_ok net cache ttl now v s snap calls hmiss hfetch]
            exact ⟨snap, calls, rfl, rfl⟩
        | error err =>
            left
            rw [load_snapshot_fetch_err_cached net cache ttl now v s e err calls hc hf hfetch]
            exact ⟨e, rfl, .inr ⟨staleWarning v s err, rfl⟩⟩
  | none =>
      rcases hfetch : fetch_snapshot net v s with ⟨res, calls⟩
      cases res with
      | ok snap =>
          have hmiss : MissAt cache ttl now v s := by
            intro e' he'
            rw [hc] at he'
            exact absurd he' (by simp)
          right; left
          rw [load_snapshot_fetch_ok net cache ttl now v s snap calls hmiss hfetch]
          exact ⟨snap, calls, rfl, rfl⟩
      | error err =>
          right; right
          rw [load_snapshot_fetch_err_none net cache ttl now v s err calls hc hfetch]
          exact ⟨err, calls, rfl, rfl, rfl⟩

/-- On a well-formed cache, every snapshot served by `load_snapshot` for key
(v, s) carries a recognized (venue, symbol) pair whose cache key is the
processed key's cache key. -/
theorem load_snapshot_served_ident (net : Net) (cache : Cache) (ttl now : Time)
    (v s : String) (hwf : CacheWF cache) (m : MarketSnapshot)
    (hm : (load_snapshot net cache ttl now v s).result = .ok (.Fresh m) ∨
      ∃ w, (load_snapshot net cache ttl now v s).result = .ok (.Stale m w)) :
    recognizedPair m.venue m.symbol = true ∧
    cache_key m.venue m.symbol = cache_key v s := by
  rcases load_snapshot_result_cases net cache ttl now v s with
    ⟨e, hc, he⟩ | ⟨snap, calls, hfetch, hres⟩ | ⟨err, calls, hfetch, hnone, hres⟩
  · have hme : m = e.snapshot := by
      rcases hm with hm | ⟨w, hm⟩ <;> rcases he with he | ⟨w', he⟩ <;>
        rw [hm] at he <;> simp at he <;> tauto
    obtain ⟨hr, hk⟩ := hwf _ e hc
    rw [hme]
    exact ⟨hr, hk.symm⟩
  · have hme : m = { snap with last_updated := now } := by
      rcases hm with hm | ⟨w, hm⟩ <;> rw [hm] at hres <;> simp at hres <;> tauto
    obtain ⟨hv, hs, hrec⟩ := fetch_snapshot_ok_ident net v s snap calls hfetch
    subst hme
    constructor
    · show recognizedPair snap.venue snap.symbol = true
      rw [hv, hs]; exact hrec
    · show cache_key snap.venue snap.symbol = cache_key v s
      rw [hv, hs]
  · rcases hm with hm | ⟨w, hm⟩ <;> rw [hm] at hres <;> exact absurd hres (by simp)

/-- Number of snapshots in a list carrying a given (venue, symbol) identity. -/
def keyCount (v s : String) (l : List MarketSnapshot) : Nat :=
  (l.filter fun m => m.venue == v && m.symbol == s).length

/-- Round-level count bound: on a well-formed cache, the snapshots served
for identity (v, s) are at most the configured keys whose cache key collides
with (v, s)'s. -/
theorem collectKeys_keyCount_le (net : Net) (clock : Nat → Time) (ttl : Time)
    (v s : String) :
    ∀ (keys : List (String × String)) (cache : Cache) (i : Nat), CacheWF cache →
    keyCount v s (collectKeys net clock ttl cache i keys).snapshots ≤
      keys.countP (fun k => recognizedPair v s &&
        (cache_key k.1 k.2 == cache_key v s)) := by
  intro keys
  induction keys with
  | nil =>
      intro cache i _
      simp [collectKeys_nil, keyCount]
  | cons k ks ih =>
      intro cache i hwf
      obtain ⟨v₀, s₀⟩ := k
      rcases hstep : load_snapshot net cache ttl (clock i) v₀ s₀ with ⟨res, cache', calls⟩
      have hwf' : CacheWF cache' := by
        have hx := load_snapshot_preservesWF net cache ttl (clock i) v₀ s₀ hwf
        rw [hstep] at hx
        exact hx
      have hcount := List.countP_cons
        (fun k => recognizedPair v s && (cache_key k.1 k.2 == cache_key v s)) (v₀, s₀) ks
      cases res with
      | ok o =>
          cases o with
          | Fresh snap =>
              rw [collectKeys_cons_fresh net clock ttl cache cache' i v₀ s₀ ks snap calls hstep]
              have hident := load_snapshot_served_ident net cache ttl (clock i) v₀ s₀ hwf snap
                (by rw [hstep]; exact .inl rfl)
              by_cases hm : (snap.venue == v && snap.symbol == s) = true
              · obtain ⟨hv, hs⟩ : snap.venue = v ∧ snap.symbol = s := by
                  simpa [Bool.and_eq_true, beq_iff_eq] using hm
                have hrec : recognizedPair v s = true := by
                  rw [← hv, ← hs]; exact hident.1
                have hkey : cache_key v₀ s₀ = cache_key v s := by
                  rw [← hv, ← hs]; exact hident.2.symm
                have hpred : (recognizedPair v s &&
                    (cache_key (v₀, s₀).1 (v₀, s₀).2 == cache_key v s)) = true := by
                  simp [hrec, hkey]
                have hih := ih cache' (i + 1) hwf'
                rw [hcount]
                simp [keyCount, List.filter_cons, hm, hrec, hkey] at hih ⊢
                omega
              · have hih := ih cache' (i + 1) hwf'
                rw [hcount]
                simp [keyCount, List.filter_cons, hm] at hih ⊢
                split <;> omega
          | Stale snap w =>
              rw [collectKeys_cons_stale net clock ttl cache cache' i v₀ s₀ ks snap w calls hstep]
              have hident := load_snapshot_served_ident net cache ttl (clock i) v₀ s₀ hwf snap
                (by rw [hstep]; exact .inr ⟨w, rfl⟩)
              by_cases hm : (snap.venue == v && snap.symbol == s) = true
              · obtain ⟨hv, hs⟩ : snap.venue = v ∧ snap.symbol = s := by
                  simpa [Bool.and_eq_true, beq_iff_eq] using hm
                have hrec : recognizedPair v s = true := by
                  rw [← hv, ← hs]; exact hident.1
                have hkey : cache_key v₀ s₀ = cache_key v s := by
                  rw [← hv, ← hs]; exact hident.2.symm
                have hpred : (recognizedPair v s &&
                    (cache_key (v₀, s₀).1 (v₀, s₀).2 == cache_key v s)) = true := by
                  simp [hrec, hkey]
                have hih := ih cache' (i + 1) hwf'
                rw [hcount]
                simp [keyCount, List.filter_cons, hm, hrec, hkey] at hih ⊢
                omega
              · have hih := ih cache' (i + 1) hwf'
                rw [hcount]
                simp [keyCount, List.filter_cons, hm] at hih ⊢
                split <;> omega
      | error e =>
          rw [collectKeys_cons_err net clock ttl cache cache' i v₀ s₀ ks e calls hstep]
          have hih := ih cache' (i + 1) hwf'
          rw [hcount]
          simp [keyCount] at hih ⊢
          split <;> omega

theorem length_le_one_of_nodup_all_eq {α : Type} (l : List α) (x : α)
    (hnd : l.Nodup) (hall : ∀ y ∈ l, y = x) : l.length ≤ 1 := by
  cases l with
  | nil => simp
  | cons a t =>
      cases t with
      | nil => simp
      | cons b t2 =>
          exfalso
          have ha : a = x := hall a (by simp)
          have hb : b = x := hall b (by simp)
          have hne : a ≠ b := by
            have hcons := List.nodup_cons.mp hnd
            intro hab
            exact hcons.1 (by rw [hab]; exact List.mem_cons_self b t2)
          exact hne (ha.trans hb.symm)

theorem countP_collision_le_one (keys : List (String × String)) (v s : String)
    (hnd : keys.Nodup) :
    keys.countP (fun k => recognizedPair v s &&
      (cache_key k.1 k.2 == cache_key v s)) ≤ 1 := by
  by_cases hrec : recognizedPair v s = true
  · rw [List.countP_eq_length_filter]
    apply length_le_one_of_nodup_all_eq _ (v, s) (hnd.filter _)
    intro y hy
    have hp := (List.mem_filter.mp hy).2
    simp only [hrec, Bool.true_and, beq_iff_eq] at hp
    obtain ⟨h1, h2⟩ := cache_key_inj_recognized y.1 y.2 v s hrec hp
    cases y
    simp_all
  · have hz : ∀ a ∈ keys,
        ¬ (recognizedPair v s && (cache_key a.1 a.2 == cache_key v s)) = true := by
      intro a _
      simp only [Bool.and_eq_true]
      intro h
      exact absurd h.1 hrec
    rw [List.countP_eq_zero.mpr hz]
    omega

/-- A `load_snapshot` step yields a hard per-key error only when the fetch
failed and no cache entry had ever existed for the key. -/
theorem load_snapshot_error_shape (net : Net) (cache : Cache) (ttl now : Time)
    (v s err : String)
    (h : (load_snapshot net cache ttl now v s).result = .error err) :
    (∃ msg calls, fetch_snapshot net v s = (.error msg, calls)) ∧
    cache (cache_key v s) = none := by
  rcases load_snapshot_result_cases net cache ttl now v s with
    ⟨e, hc, he | ⟨w, he⟩⟩ | ⟨snap, calls, hfetch, hres⟩ | ⟨msg, calls, hfetch, hnone, hres⟩
  · rw [h] at he; exact absurd he (by simp)
  · rw [h] at he; exact absurd he (by simp)
  · rw [h] at hres; exact absurd hres (by simp)
  · exact ⟨⟨msg, calls, hfetch⟩, hnone⟩

/-- C6 (amended): for a configuration whose flattened (venue, symbol) list
has no duplicates and a well-formed cache (the startup cache is, and rounds
preserve well-formedness), the outcome contains at most one snapshot per
(venue, symbol) identity; and a key contributes no snapshot to a round only
when its fetch failed while no cache entry existed. -/
theorem collect_atMostOnePerKey
    (net : Net) (clock : Nat → Time) (cache : Cache) (config : AppConfig)
    (hwf : CacheWF cache) (hnd : (configKeys config).Nodup) :
    (∀ v s, keyCount v s (collect net clock cache config).outcome.snapshots ≤ 1) ∧
    CacheWF (collect net clock cache config).cache ∧
    (∀ (cache' : Cache) (now : Time) (v s err : String),
      (load_snapshot net cache' (ttlOf config) now v s).result = .error err →
      (∃ msg calls, fetch_snapshot net v s = (.error msg, calls)) ∧
      cache' (cache_key v s) = none) := by
  refine ⟨fun v s => ?_, ?_,
    fun cache' now v s err h =>
      load_snapshot_error_shape net cache' (ttlOf config) now v s err h⟩
  · rw [collect_snapshots]
    exact le_trans
      (collectKeys_keyCount_le net clock (ttlOf config) v s (configKeys config) cache 0 hwf)
      (countP_collision_le_one (configKeys config) v s hnd)
  · rw [collect_cache]
    exact collectKeys_preservesWF net clock (ttlOf config) (configKeys config) cache 0 hwf

/-- A configuration listing the same (venue, symbol) pair twice. -/
def cfgDup : AppConfig := ⟨1000, 60, [⟨"Bitfinex", ["tBTCUSD", "tBTCUSD"]⟩], false⟩

/-- Counterexample to C6 as stated: with a duplicated configured key, one
round returns two snapshots for the configured key (Bitfinex, tBTCUSD),
violating "at most one Snapshot per configured InstrumentKey". -/
theorem collect_duplicateKey_twoSnapshots :
    ("Bitfinex", "tBTCUSD") ∈ configKeys cfgDup ∧
    keyCount "Bitfinex" "tBTCUSD"
      (collect netOk clk0 emptyCache cfgDup).outcome.snapshots = 2 := by
  constructor
  · decide
  · decide

/-- Witness for the amended C6 at a concrete input: with a duplicate-free
configuration and the startup cache, the round serves at most one snapshot
for the configured key. -/
theorem collect_atMostOnePerKey_witness :
    (configKeys cfg1).Nodup ∧
    keyCount "Bitfinex" "tBTCUSD"
      (collect netOk clk0 emptyCache cfg1).outcome.snapshots ≤ 1 :=
  ⟨by decide,
   (collect_atMostOnePerKey netOk clk0 emptyCache cfg1 CacheWF_empty (by decide)).1
     "Bitfinex" "tBTCUSD"⟩

/-! ### Two-round idempotence (for C8) -/

/-- Snapshot read out of a cache slot (dummy for an absent slot; the lemmas
using it always establish the slot is populated). -/
def extractSnap : Option CachedSnapshot → MarketSnapshot
  | some e => e.snapshot
  | none => ⟨"", "", "", 0, none, 0, none, none, 0⟩

/-- A failure-free round over a cache whose entries stay fresh for both
rounds' clocks: no warnings, the cache only grows, all entries stay fresh,
every processed key ends up cached, and the served snapshots are exactly the
final cache's entries read in configured order. -/
theorem round_noFailure (net : Net) (c₁ c₂ : Nat → Time) (ttl : Time)
    (hwr : ∀ i j, c₁ j - c₁ i < ttl ∧ c₂ j - c₁ i < ttl) :
    ∀ (keys : List (String × String)) (cache : Cache) (i : Nat),
    (∀ k ∈ keys, ∃ snap calls, fetch_snapshot net k.1 k.2 = (.ok snap, calls)) →
    (∀ k e, cache k = some e → ∀ j,
      c₁ j - e.fetched_at < ttl ∧ c₂ j - e.fetched_at < ttl) →
    (collectKeys net c₁ ttl cache i keys).warnings = [] ∧
    (∀ k e, cache k = some e → (collectKeys net c₁ ttl cache i keys).cache k = some e) ∧
    (∀ k e, (collectKeys net c₁ ttl cache i keys).cache k = some e → ∀ j,
      c₁ j - e.fetched_at < ttl ∧ c₂ j - e.fetched_at < ttl) ∧
    (∀ k ∈ keys, ∃ e,
      (collectKeys net c₁ ttl cache i keys).cache (cache_key k.1 k.2) = some e) ∧
    (collectKeys net c₁ ttl cache i keys).snapshots =
      keys.map (fun k => extractSnap
        ((collectKeys net c₁ ttl cache i keys).cache (cache_key k.1 k.2))) := by
  intro keys
  induction keys with
  | nil =>
      intro cache i _ hfr
      rw [collectKeys_nil]
      exact ⟨rfl, fun k e h => h, hfr, by simp, rfl⟩
  | cons k ks ih =>
      intro cache i hok hfr
      obtain ⟨v, s⟩ := k
      cases hc : cache (cache_key v s) with
      | some e =>
          have hstep := load_snapshot_hit net cache ttl (c₁ i) v s e hc ((hfr _ e hc i).1)
          rw [collectKeys_cons_fresh net c₁ ttl cache cache i v s ks e.snapshot [] hstep]
          obtain ⟨ihw, ihpers, ihfr, ihex, ihsnap⟩ :=
            ih cache (i + 1) (fun k hk => hok k (List.mem_cons_of_mem _ hk)) hfr
          refine ⟨ihw, ihpers, ihfr, ?_, ?_⟩
          · intro k hk
            rcases List.mem_cons.mp hk with rfl | hk'
            · exact ⟨e, ihpers _ e hc⟩
            · exact ihex k hk'
          · show e.snapshot :: (collectKeys net c₁ ttl cache (i + 1) ks).snapshots =
                List.map (fun k => extractSnap
                  ((collectKeys net c₁ ttl cache (i + 1) ks).cache (cache_key k.1 k.2)))
                  ((v, s) :: ks)
            rw [List.map_cons, ihpers _ e hc, ihsnap]
            simp [extractSnap]
      | none =>
          obtain ⟨snap, calls, hfetch⟩ := hok (v, s) (List.mem_cons_self _ _)
          have hmiss : MissAt cache ttl (c₁ i) v s := by
            intro e' he'
            rw [hc] at he'
            exact absurd he' (by simp)
          have hstep := load_snapshot_fetch_ok net cache ttl (c₁ i) v s snap calls hmiss hfetch
          rw [collectKeys_cons_fresh net c₁ ttl cache
            (cacheInsert cache (cache_key v s) ⟨{ snap with last_updated := c₁ i }, c₁ i⟩)
            i v s ks { snap with last_updated := c₁ i } calls hstep]
          have hfr' : ∀ k e,
              cacheInsert cache (cache_key v s)
                ⟨{ snap with last_updated := c₁ i }, c₁ i⟩ k = some e → ∀ j,
              c₁ j - e.fetched_at < ttl ∧ c₂ j - e.fetched_at < ttl := by
            intro k e hk j
            by_cases hkey : k = cache_key v s
            · subst hkey
              simp only [cacheInsert, if_pos rfl] at hk
              injection hk with hk'
              rw [← hk']
              exact hwr i j
            · simp only [cacheInsert, if_neg hkey] at hk
              exact hfr k e hk j
          obtain ⟨ihw, ihpers, ihfr, ihex, ihsnap⟩ :=
            ih (cacheInsert cache (cache_key v s)
              ⟨{ snap with last_updated := c₁ i }, c₁ i⟩) (i + 1)
              (fun k hk => hok k (List.mem_cons_of_mem _ hk)) hfr'
          refine ⟨ihw, ?_, ihfr, ?_, ?_⟩
          · intro k e hk
            have hne : k ≠ cache_key v s := by
              intro hkey
              subst hkey
              rw [hc] at hk
              exact absurd hk (by simp)
            refine ihpers k e ?_
            simp only [cacheInsert, if_neg hne]
            exact hk
          · intro k hk
            rcases List.mem_cons.mp hk with rfl | hk'
            · exact ⟨⟨{ snap with last_updated := c₁ i }, c₁ i⟩,
                ihpers _ _ (by simp [cacheInsert])⟩
            · exact ihex k hk'
          · show { snap with last_updated := c₁ i } ::
                (collectKeys net c₁ ttl (cacheInsert cache (cache_key v s)
                  ⟨{ snap with last_updated := c₁ i }, c₁ i⟩) (i + 1) ks).snapshots =
              List.map (fun k => extractSnap
                ((collectKeys net c₁ ttl (cacheInsert cache (cache_key v s)
                  ⟨{ snap with last_updated := c₁ i }, c₁ i⟩) (i + 1) ks).cache
                  (cache_key k.1 k.2))) ((v, s) :: ks)
            rw [List.map_cons,
              ihpers (cache_key v s) ⟨{ snap with last_updated := c₁ i }, c₁ i⟩
                (by simp [cacheInsert]), ihsnap]
            simp [extractSnap]

/-- A round in which every configured key has a fresh cache entry serves
everything from the cache: no fetches, no warnings, no cache change. -/
theorem round_allHit (net : Net) (c₂ : Nat → Time) (ttl : Time) :
    ∀ (keys : List (String × String)) (cache : Cache) (i : Nat),
    (∀ k ∈ keys, ∃ e, cache (cache_key k.1 k.2) = some e ∧
      ∀ j, c₂ j - e.fetched_at < ttl) →
    collectKeys net c₂ ttl cache i keys =
      ⟨cache, keys.map (fun k => extractSnap (cache (cache_key k.1 k.2))), [], []⟩ := by
  intro keys
  induction keys with
  | nil =>
      intro cache i _
      rw [collectKeys_nil]
      simp
  | cons k ks ih =>
      intro cache i hall
      obtain ⟨v, s⟩ := k
      obtain ⟨e, hc, hfre⟩ := hall (v, s) (List.mem_cons_self _ _)
      have hstep := load_snapshot_hit net cache ttl (c₂ i) v s e hc (hfre i)
      rw [collectKeys_cons_fresh net c₂ ttl cache cache i v s ks e.snapshot [] hstep]
      rw [ih cache (i + 1) (fun k hk => hall k (List.mem_cons_of_mem _ hk))]
      simp [List.map_cons, hc, extractSnap]

/-- C8: two rounds in immediate succession (every timestamp of either round
within TTL of every timestamp of the first round — which forces TTL > 0)
with no adapter failures and a cache whose entries stay fresh across both
rounds yield identical snapshot lists; both rounds are warning-free and the
second round performs no adapter invocation and leaves the cache unchanged
(it is fully cache-served). -/
theorem collect_idempotent_secondRoundCached
    (net : Net) (c₁ c₂ : Nat → Time) (cache : Cache) (config : AppConfig)
    (hok : ∀ k ∈ configKeys config, ∃ snap calls,
      fetch_snapshot net k.1 k.2 = (.ok snap, calls))
    (hwr : ∀ i j, c₁ j - c₁ i < ttlOf config ∧ c₂ j - c₁ i < ttlOf config)
    (hfr : ∀ k e, cache k = some e → ∀ j,
      c₁ j - e.fetched_at < ttlOf config ∧ c₂ j - e.fetched_at < ttlOf config) :
    (collect net c₂ (collect net c₁ cache config).cache config).outcome.snapshots
      = (collect net c₁ cache config).outcome.snapshots ∧
    (collect net c₁ cache config).outcome.warnings = [] ∧
    (collect net c₂ (collect net c₁ cache config).cache config).outcome.warnings = [] ∧
    (collect net c₂ (collect net c₁ cache config).cache config).netCalls = [] ∧
    (collect net c₂ (collect net c₁ cache config).cache config).cache
      = (collect net c₁ cache config).cache := by
  obtain ⟨h1w, h1pers, h1fr, h1ex, h1snap⟩ :=
    round_noFailure net c₁ c₂ (ttlOf config) hwr (configKeys config) cache 0 hok hfr
  have hall : ∀ k ∈ configKeys config, ∃ e,
      (collectKeys net c₁ (ttlOf config) cache 0 (configKeys config)).cache
        (cache_key k.1 k.2) = some e ∧
      ∀ j, c₂ j - e.fetched_at < ttlOf config := by
    intro k hk
    obtain ⟨e, he⟩ := h1ex k hk
    exact ⟨e, he, fun j => (h1fr _ e he j).2⟩
  have h2 := round_allHit net c₂ (ttlOf config) (configKeys config)
    (collectKeys net c₁ (ttlOf config) cache 0 (configKeys config)).cache 0 hall
  refine ⟨?_, ?_, ?_, ?_, ?_⟩
  · rw [collect_snapshots, collect_cache, h2]
    exact h1snap.symm
  · rw [collect_warnings]
    exact h1w
  · rw [collect_warnings, collect_cache, h2]
  · rw [collect_netCalls, collect_cache, h2]
  · rw [collect_cache, collect_cache, h2]

/-- Witness for C8 at a concrete input: with the full default four-key
configuration, an always-succeeding network, both clocks frozen at 0 and an
empty starting cache, the second round reproduces the first round's
snapshots from cache alone. -/
theorem collect_idempotent_secondRoundCached_witness :
    (0 : Int) - 0 < ttlOf AppConfig.default ∧
    (collect netOk clk0 (collect netOk clk0 emptyCache AppConfig.default).cache
        AppConfig.default).outcome.snapshots
      = (collect netOk clk0 emptyCache AppConfig.default).outcome.snapshots ∧
    (collect netOk clk0 emptyCache AppConfig.default).outcome.warnings = [] ∧
    (collect netOk clk0 (collect netOk clk0 emptyCache AppConfig.default).cache
        AppConfig.default).outcome.warnings = [] ∧
    (collect netOk clk0 (collect netOk clk0 emptyCache AppConfig.default).cache
        AppConfig.default).netCalls = [] :=
  have hmain := collect_idempotent_secondRoundCached netOk clk0 clk0 emptyCache
    AppConfig.default
    (by
      intro k hk
      have hlist : configKeys AppConfig.default =
          [("Bitfinex", "tBTCUSD"), ("Bitfinex", "tBTCF0:USTF0"),
           ("Deribit", "BTC-USD"), ("Deribit", "BTC-PERPETUAL")] := rfl
      rw [hlist] at hk
      simp only [List.mem_cons, List.not_mem_nil, or_false] at hk
      rcases hk with rfl | rfl | rfl | rfl
      · exact ⟨_, _, rfl⟩
      · exact ⟨_, _, rfl⟩
      · exact ⟨_, _, rfl⟩
      · exact ⟨_, _, rfl⟩)
    (fun i j =>
      ⟨(by decide : (0 : Int) - 0 < ttlOf AppConfig.default),
       (by decide : (0 : Int) - 0 < ttlOf AppConfig.default)⟩)
    (fun k e h => absurd h (by simp [emptyCache]))
  ⟨by decide, hmain.1, hmain.2.1, hmain.2.2.1, hmain.2.2.2.1⟩
